import Mathlib

/-!
# basic-game: the monster game state machine of `basic-game/application.go`

A shallow embedding of the Go program and theorems about it.

* Go `int` is the 64-bit two's-complement integer of the target (the Cartesi
  machine is riscv64): `GoInt` carries an `Int` together with its range, and
  subtraction wraps modulo `2^64`.
* A Go `map[string]Monster` is either `nil` or an allocated table.  The table is
  kept as a list of key/value entries that is only ever touched through
  `index`, `assign` and `delete`, the three operations the program uses.
* Methods mutate their receiver: here they take the application value and
  return it.  A call either returns (with Go's `error`, `none` standing for
  `nil`) or ends in a run-time panic.
* `encoding/json` and the rollmelette environment are libraries outside the
  repository: the decoders and the encoder are parameters (`Json`), and the
  environment is the sequence of reports emitted so far.
-/

namespace BasicGame

/-! ## Machine integers -/

/-- Smallest value of a 64-bit Go `int`, `-2^63`. -/
def minInt : Int := -9223372036854775808

/-- Largest value of a 64-bit Go `int`, `2^63 - 1`. -/
def maxInt : Int := 9223372036854775807

/-- Two's-complement reduction of an unbounded integer to 64 bits. -/
def wrapInt (z : Int) : Int :=
  (z + 9223372036854775808) % 18446744073709551616 - 9223372036854775808

/-- Go's `int` on a 64-bit target. -/
def GoInt : Type := { z : Int // minInt ≤ z ∧ z ≤ maxInt }

instance : DecidableEq GoInt :=
  inferInstanceAs (DecidableEq { z : Int // minInt ≤ z ∧ z ≤ maxInt })

namespace GoInt

/-- The mathematical value of a machine integer. -/
def toInt (x : GoInt) : Int := x.val

/-- Conversion of an unbounded integer, wrapping into range. -/
def ofInt (z : Int) : GoInt :=
  ⟨wrapInt z, by unfold wrapInt minInt maxInt; omega⟩

/-- Go's `x - y` on `int`: the difference, wrapped to 64 bits. -/
def sub (x y : GoInt) : GoInt := ofInt (x.toInt - y.toInt)

instance : LT GoInt := ⟨fun x y => x.toInt < y.toInt⟩

instance : LE GoInt := ⟨fun x y => x.toInt ≤ y.toInt⟩

instance (x y : GoInt) : Decidable (x < y) :=
  inferInstanceAs (Decidable (x.toInt < y.toInt))

instance (x y : GoInt) : Decidable (x ≤ y) :=
  inferInstanceAs (Decidable (x.toInt ≤ y.toInt))

instance : Sub GoInt := ⟨GoInt.sub⟩

/-- The integer constant `0`. -/
def zero : GoInt := ofInt 0

end GoInt

/-! ## Data model -/

/-- Type `common.Address`: a 20-byte array, compared byte-wise; kept as the number it spells. -/
abbrev Address : Type := Fin (2 ^ 160)

/-- Type `[]byte`. -/
abbrev Bytes : Type := List UInt8

/-- The `Monster` struct. -/
structure Monster where
  Name : String
  HitPoints : GoInt
  deriving DecidableEq

/-- A Go `map[string]Monster`: `none` is the nil map, `some es` an allocated map
with entries `es`. -/
abbrev GoMap : Type := Option (List (String × Monster))

namespace GoMap

/-- First value stored under `k` in a table. -/
def find (k : String) : List (String × Monster) → Option Monster
  | [] => none
  | (k', v) :: es => if k' = k then some v else find k es

/-- The table with the value under `k` replaced by `v`, or with `(k, v)` added
when `k` has no entry. -/
def put (k : String) (v : Monster) : List (String × Monster) → List (String × Monster)
  | [] => [(k, v)]
  | (k', v') :: es => if k' = k then (k, v) :: es else (k', v') :: put k v es

/-- The table without the entries under `k`. -/
def drop (k : String) : List (String × Monster) → List (String × Monster)
  | [] => []
  | (k', v') :: es => if k' = k then drop k es else (k', v') :: drop k es

/-- Expression `make(map[string]Monster)`: an allocated, empty map. -/
def make : GoMap := some []

/-- The comma-ok read `v, ok := m[k]`: `some v` when `ok`, `none` otherwise.
Reading a nil map finds nothing. -/
def index (m : GoMap) (k : String) : Option Monster :=
  match m with
  | none => none
  | some es => find k es

/-- The statement `m[k] = v`: the updated map, or `none` for the run-time panic
"assignment to entry in nil map". -/
def assign (m : GoMap) (k : String) (v : Monster) : Option GoMap :=
  match m with
  | none => none
  | some es => some (some (put k v es))

/-- The builtin `delete(m, k)`; a no-op on a nil map. -/
def delete (m : GoMap) (k : String) : GoMap :=
  match m with
  | none => none
  | some es => some (drop k es)

end GoMap

/-- The `GameState` struct. -/
structure GameState where
  Monsters : GoMap
  deriving DecidableEq

/-- Type `InputKind`, a string. -/
abbrev InputKind : Type := String

/-- Constant `AddMonster`. -/
def AddMonster : InputKind := "AddMonster"

/-- Constant `AttackMonster`. -/
def AttackMonster : InputKind := "AttackMonster"

/-- The `Input` struct: the command envelope, its payload still raw JSON. -/
structure Input where
  Kind : InputKind
  Payload : Bytes
  deriving DecidableEq

/-- Type alias `AddMonsterPayload = Monster`. -/
abbrev AddMonsterPayload : Type := Monster

/-- The `AttackMonsterPayload` struct. -/
structure AttackMonsterPayload where
  MonsterName : String
  Damage : GoInt
  deriving DecidableEq

/-- The `GameApplication` struct. -/
structure GameApplication where
  gm : Address
  state : GameState
  deriving DecidableEq

/-- Type `rollmelette.Metadata`; the program reads only `MsgSender`. -/
structure Metadata where
  MsgSender : Address
  deriving DecidableEq

/-- Type `rollmelette.Deposit`; the program never looks at it. -/
abbrev Deposit : Type := Unit

/-- The rollmelette environment as the program uses it: the reports emitted so
far, oldest first. -/
abbrev Env : Type := List Bytes

/-- Method `env.Report(bytes)`. -/
def Env.Report (env : Env) (bytes : Bytes) : Env := env ++ [bytes]

/-- Outcome of a call: it returns Go's `error` (`none` is `nil`) together with
the state it leaves, or it panics. -/
inductive Res (σ : Type) where
  | ret (err : Option String) (post : σ)
  | panic (msg : String)
  deriving DecidableEq

/-- Message of the run-time panic raised by a write to a nil map. -/
def nilMapPanic : String := "assignment to entry in nil map"

/-- The `encoding/json` calls of the program: `json.Unmarshal` at the three
types it decodes into (each time into a fresh zero value, so the result
depends on the bytes alone) and `json.Marshal` of the game state.  A decoder
answers with the decoded value or with the decoding error's message.
`encoding/json` has no error for a value made of a map with string keys,
strings and ints, which `marshal_ok` records. -/
structure Json where
  unmarshalInput : Bytes → Except String Input
  unmarshalAddMonster : Bytes → Except String AddMonsterPayload
  unmarshalAttackMonster : Bytes → Except String AttackMonsterPayload
  marshal : GameState → Except String Bytes
  marshal_ok : ∀ s : GameState, ∃ bytes, marshal s = Except.ok bytes

/-! ## The program -/

/-- Function `NewGameApplication`. -/
def NewGameApplication (gm : Address) : GameApplication :=
  { gm := gm, state := { Monsters := GoMap.make } }

/-- Method `handleAddMonster`. -/
def handleAddMonster (a : GameApplication) (metadata : Metadata)
    (inputPayload : AddMonsterPayload) : Res GameApplication :=
  if metadata.MsgSender ≠ a.gm then
    Res.ret (some "only GM can add monsters") a
  else if inputPayload.HitPoints ≤ GoInt.zero then
    Res.ret (some "hit points must be positive") a
  else
    match a.state.Monsters.index inputPayload.Name with
    | some _ => Res.ret (some "monster with this name already exists") a
    | none =>
      match a.state.Monsters.assign inputPayload.Name inputPayload with
      | none => Res.panic nilMapPanic
      | some monsters => Res.ret none { a with state := { Monsters := monsters } }

/-- Method `handleAttackMonster`. -/
def handleAttackMonster (a : GameApplication)
    (inputPayload : AttackMonsterPayload) : Res GameApplication :=
  if inputPayload.Damage < GoInt.zero then
    Res.ret (some "negative damage") a
  else
    match a.state.Monsters.index inputPayload.MonsterName with
    | none => Res.ret (some "monster not found") a
    | some found =>
      let monster : Monster := { found with HitPoints := found.HitPoints - inputPayload.Damage }
      if monster.HitPoints ≤ GoInt.zero then
        Res.ret none
          { a with state := { Monsters := a.state.Monsters.delete inputPayload.MonsterName } }
      else
        match a.state.Monsters.assign inputPayload.MonsterName monster with
        | none => Res.panic nilMapPanic
        | some monsters => Res.ret none { a with state := { Monsters := monsters } }

/-- Method `Inspect`. -/
def Inspect (J : Json) (a : GameApplication) (env : Env) (_payload : Bytes) :
    Res (GameApplication × Env) :=
  match J.marshal a.state with
  | Except.error err => Res.ret (some ("failed to marshal: " ++ err)) (a, env)
  | Except.ok bytes => Res.ret none (a, env.Report bytes)

/-- Method `Advance`. -/
def Advance (J : Json) (a : GameApplication) (env : Env) (metadata : Metadata)
    (_deposit : Deposit) (payload : Bytes) : Res (GameApplication × Env) :=
  match J.unmarshalInput payload with
  | Except.error err => Res.ret (some ("failed to unmarshal input: " ++ err)) (a, env)
  | Except.ok input =>
    if input.Kind = AddMonster then
      match J.unmarshalAddMonster input.Payload with
      | Except.error err => Res.ret (some ("failed to unmarshal payload: " ++ err)) (a, env)
      | Except.ok inputPayload =>
        match handleAddMonster a metadata inputPayload with
        | Res.panic msg => Res.panic msg
        | Res.ret (some err) a' => Res.ret (some err) (a', env)
        | Res.ret none a' => Inspect J a' env []
    else if input.Kind = AttackMonster then
      match J.unmarshalAttackMonster input.Payload with
      | Except.error err => Res.ret (some ("failed to unmarshal payload: " ++ err)) (a, env)
      | Except.ok inputPayload =>
        match handleAttackMonster a inputPayload with
        | Res.panic msg => Res.panic msg
        | Res.ret (some err) a' => Res.ret (some err) (a', env)
        | Res.ret none a' => Inspect J a' env []
    else
      Res.ret (some ("invalid input kind: " ++ input.Kind)) (a, env)

/-- The application states the running program can be in when it starts from
`NewGameApplication gm`: every `Advance` or `Inspect` call that returns, with or
without an error, leads to the next one. -/
inductive Reachable (J : Json) (gm : Address) : GameApplication → Prop where
  | init : Reachable J gm (NewGameApplication gm)
  | advance {a a' : GameApplication} {env env' : Env} {err : Option String}
      (metadata : Metadata) (deposit : Deposit) (payload : Bytes) :
      Reachable J gm a →
      Advance J a env metadata deposit payload = Res.ret err (a', env') →
      Reachable J gm a'
  | inspect {a a' : GameApplication} {env env' : Env} {err : Option String}
      (payload : Bytes) :
      Reachable J gm a →
      Inspect J a env payload = Res.ret err (a', env') →
      Reachable J gm a'

/-- Every entry of the monster table holds strictly positive hit points. -/
def AllPositive (a : GameApplication) : Prop :=
  ∀ es, a.state.Monsters = some es → ∀ e ∈ es, GoInt.zero < e.2.HitPoints

/-- The value `new(GameApplication)` that `main` builds: the zero value of the
struct, with the zero address and a nil map. -/
def zeroGameApplication : GameApplication :=
  { gm := 0, state := { Monsters := none } }

/-! ## Sample data for concrete runs

The theorems below hold for every `Json`.  To run the program on concrete
bytes, `sampleJson` decodes a handful of messages, each to what
`encoding/json` makes of it, and rejects the empty input as `encoding/json`
does; its encoder writes the entries in table order and does not escape
names. -/

/-- The bytes of an ASCII text. -/
def ascii (s : String) : Bytes := s.toList.map fun c => UInt8.ofNat c.toNat

/-- Payload text of adding the monster Dragon with 10 hit points. -/
def payloadAddDragon : Bytes :=
  ascii "\x7b\"name\":\"Dragon\",\"hitPoints\":10\x7d"

/-- Payload text of adding the monster Goblin with 5 hit points. -/
def payloadAddGoblin : Bytes :=
  ascii "\x7b\"name\":\"Goblin\",\"hitPoints\":5\x7d"

/-- Payload text of an attack on Dragon with damage 4. -/
def payloadAttackDragon4 : Bytes :=
  ascii "\x7b\"monsterName\":\"Dragon\",\"damage\":4\x7d"

/-- Payload text of an attack on Dragon with damage 6. -/
def payloadAttackDragon6 : Bytes :=
  ascii "\x7b\"monsterName\":\"Dragon\",\"damage\":6\x7d"

/-- Envelope text around a payload. -/
def envelope (kind : String) (payload : Bytes) : Bytes :=
  ascii ("\x7b\"kind\":\"" ++ kind ++ "\",\"payload\":") ++ payload ++ ascii "\x7d"

/-- Decoder of the sample envelopes. -/
def sampleUnmarshalInput (bytes : Bytes) : Except String Input :=
  if bytes = envelope "AddMonster" payloadAddDragon then
    Except.ok { Kind := "AddMonster", Payload := payloadAddDragon }
  else if bytes = envelope "AddMonster" payloadAddGoblin then
    Except.ok { Kind := "AddMonster", Payload := payloadAddGoblin }
  else if bytes = envelope "AttackMonster" payloadAttackDragon4 then
    Except.ok { Kind := "AttackMonster", Payload := payloadAttackDragon4 }
  else if bytes = envelope "AttackMonster" payloadAttackDragon6 then
    Except.ok { Kind := "AttackMonster", Payload := payloadAttackDragon6 }
  else if bytes = envelope "Heal" payloadAttackDragon4 then
    Except.ok { Kind := "Heal", Payload := payloadAttackDragon4 }
  else if bytes = ascii "\x7b\x7d" then
    Except.ok { Kind := "", Payload := [] }
  else
    Except.error "unexpected end of JSON input"

/-- Decoder of the sample `AddMonster` payloads. -/
def sampleUnmarshalAddMonster (bytes : Bytes) : Except String AddMonsterPayload :=
  if bytes = payloadAddDragon then
    Except.ok { Name := "Dragon", HitPoints := GoInt.ofInt 10 }
  else if bytes = payloadAddGoblin then
    Except.ok { Name := "Goblin", HitPoints := GoInt.ofInt 5 }
  else
    Except.error "unexpected end of JSON input"

/-- Decoder of the sample `AttackMonster` payloads. -/
def sampleUnmarshalAttackMonster (bytes : Bytes) : Except String AttackMonsterPayload :=
  if bytes = payloadAttackDragon4 then
    Except.ok { MonsterName := "Dragon", Damage := GoInt.ofInt 4 }
  else if bytes = payloadAttackDragon6 then
    Except.ok { MonsterName := "Dragon", Damage := GoInt.ofInt 6 }
  else
    Except.error "unexpected end of JSON input"

/-- JSON text of one monster. -/
def renderMonster (m : Monster) : String :=
  "\x7b\"name\":\"" ++ m.Name ++ "\",\"hitPoints\":" ++ toString m.HitPoints.toInt ++ "\x7d"

/-- JSON text of the game state. -/
def renderState (s : GameState) : String :=
  match s.Monsters with
  | none => "\x7b\"monsters\":null\x7d"
  | some es =>
    "\x7b\"monsters\":\x7b" ++
      ",".intercalate (es.map fun e => "\"" ++ e.1 ++ "\":" ++ renderMonster e.2) ++
      "\x7d\x7d"

/-- The sample instance of `Json`. -/
def sampleJson : Json where
  unmarshalInput := sampleUnmarshalInput
  unmarshalAddMonster := sampleUnmarshalAddMonster
  unmarshalAttackMonster := sampleUnmarshalAttackMonster
  marshal := fun s => Except.ok (ascii (renderState s))
  marshal_ok := fun s => ⟨ascii (renderState s), rfl⟩

/-- The game-master address used in the concrete runs. -/
def sampleGM : Address := 4919

/-- The state holding only Dragon with the given hit points. -/
def dragonState (hitPoints : Int) : GameApplication :=
  { gm := sampleGM,
    state := { Monsters := some [("Dragon", { Name := "Dragon", HitPoints := GoInt.ofInt hitPoints })] } }

/-- The state of game-master `gm` holding only Dragon with the given hit points. -/
def dragonOnly (gm : Address) (hitPoints : Int) : GameApplication :=
  { gm := gm,
    state := { Monsters := some [("Dragon", { Name := "Dragon", HitPoints := GoInt.ofInt hitPoints })] } }

/-- Every monster sits under its own name, and no key occurs twice in the table. -/
def KeyedByName (a : GameApplication) : Prop :=
  ∀ es, a.state.Monsters = some es →
    (∀ e ∈ es, e.2.Name = e.1) ∧ (es.map Prod.fst).Nodup

/-- Payload text of adding a monster with the empty name and 5 hit points. -/
def payloadAddNameless : Bytes :=
  ascii "\x7b\"name\":\"\",\"hitPoints\":5\x7d"

/-- The sample `Json` extended with the message that adds the monster with the
empty name. -/
def namelessJson : Json where
  unmarshalInput := fun bytes =>
    if bytes = envelope "AddMonster" payloadAddNameless then
      Except.ok { Kind := "AddMonster", Payload := payloadAddNameless }
    else sampleUnmarshalInput bytes
  unmarshalAddMonster := fun bytes =>
    if bytes = payloadAddNameless then
      Except.ok { Name := "", HitPoints := GoInt.ofInt 5 }
    else sampleUnmarshalAddMonster bytes
  unmarshalAttackMonster := sampleUnmarshalAttackMonster
  marshal := fun s => Except.ok (ascii (renderState s))
  marshal_ok := fun s => ⟨ascii (renderState s), rfl⟩

/-- The state holding only the monster with the empty name and 5 hit points. -/
def namelessState : GameApplication :=
  { gm := sampleGM,
    state := { Monsters := some [("", { Name := "", HitPoints := GoInt.ofInt 5 })] } }

/-! ## Facts about machine integers -/

theorem wrapInt_range (z : Int) : minInt ≤ wrapInt z ∧ wrapInt z ≤ maxInt := by
  unfold wrapInt minInt maxInt
  omega

theorem wrapInt_of_range (z : Int) (h : minInt ≤ z ∧ z ≤ maxInt) : wrapInt z = z := by
  unfold wrapInt
  unfold minInt maxInt at h
  omega

theorem GoInt.le_iff (x y : GoInt) : x ≤ y ↔ x.toInt ≤ y.toInt := Iff.rfl

theorem GoInt.lt_iff (x y : GoInt) : x < y ↔ x.toInt < y.toInt := Iff.rfl

theorem GoInt.zero_toInt : GoInt.zero.toInt = 0 := by decide

theorem GoInt.sub_toInt (x y : GoInt) : (x - y).toInt = wrapInt (x.toInt - y.toInt) := rfl

theorem GoInt.toInt_range (x : GoInt) : minInt ≤ x.toInt ∧ x.toInt ≤ maxInt := x.property

theorem GoInt.ext {x y : GoInt} (h : x.toInt = y.toInt) : x = y := Subtype.ext h

/-- Subtracting a non-negative amount from a positive one never leaves the
64-bit range, so the machine difference is the mathematical one. -/
theorem GoInt.sub_toInt_of_pos (x y : GoInt) (hx : GoInt.zero < x) (hy : ¬ y < GoInt.zero) :
    (x - y).toInt = x.toInt - y.toInt := by
  rw [GoInt.sub_toInt]
  apply wrapInt_of_range
  have rx := x.toInt_range
  have ry := y.toInt_range
  rw [GoInt.lt_iff, GoInt.zero_toInt] at hx hy
  unfold minInt maxInt at *
  omega

/-! ## Facts about the map operations -/

theorem GoMap.find_put_same (k : String) (v : Monster) (es : List (String × Monster)) :
    GoMap.find k (GoMap.put k v es) = some v := by
  induction es with
  | nil => simp [GoMap.put, GoMap.find]
  | cons e es ih =>
    obtain ⟨k', v'⟩ := e
    by_cases h : k' = k
    · simp [GoMap.put, GoMap.find, h]
    · simp [GoMap.put, GoMap.find, h, ih]

theorem GoMap.find_put_ne (k k' : String) (v : Monster) (es : List (String × Monster))
    (hne : k' ≠ k) : GoMap.find k' (GoMap.put k v es) = GoMap.find k' es := by
  induction es with
  | nil => simp [GoMap.put, GoMap.find, hne.symm]
  | cons e es ih =>
    obtain ⟨k₀, v₀⟩ := e
    by_cases h : k₀ = k
    · subst h
      simp [GoMap.put, GoMap.find, hne.symm]
    · by_cases h' : k₀ = k'
      · subst h'
        simp [GoMap.put, GoMap.find, h]
      · simp [GoMap.put, GoMap.find, h, h', ih]

theorem GoMap.find_drop_same (k : String) (es : List (String × Monster)) :
    GoMap.find k (GoMap.drop k es) = none := by
  induction es with
  | nil => simp [GoMap.drop, GoMap.find]
  | cons e es ih =>
    obtain ⟨k', v'⟩ := e
    by_cases h : k' = k
    · simp [GoMap.drop, h, ih]
    · simp [GoMap.drop, GoMap.find, h, ih]

theorem GoMap.find_drop_ne (k k' : String) (es : List (String × Monster)) (hne : k' ≠ k) :
    GoMap.find k' (GoMap.drop k es) = GoMap.find k' es := by
  induction es with
  | nil => simp [GoMap.drop, GoMap.find]
  | cons e es ih =>
    obtain ⟨k₀, v₀⟩ := e
    by_cases h : k₀ = k
    · subst h
      simp [GoMap.drop, GoMap.find, hne.symm, ih]
    · by_cases h' : k₀ = k'
      · subst h'
        simp [GoMap.drop, GoMap.find, h]
      · simp [GoMap.drop, GoMap.find, h, h', ih]

theorem GoMap.find_mem {k : String} {v : Monster} {es : List (String × Monster)}
    (h : GoMap.find k es = some v) : (k, v) ∈ es := by
  induction es with
  | nil => simp [GoMap.find] at h
  | cons e es ih =>
    obtain ⟨k', v'⟩ := e
    by_cases hk : k' = k
    · simp [GoMap.find, hk] at h
      simp [hk, h]
    · simp [GoMap.find, hk] at h
      exact List.mem_cons_of_mem _ (ih h)

theorem GoMap.mem_put {k : String} {v : Monster} {es : List (String × Monster)}
    {e : String × Monster} (h : e ∈ GoMap.put k v es) : e = (k, v) ∨ e ∈ es := by
  induction es with
  | nil => simpa [GoMap.put] using h
  | cons e₀ es ih =>
    obtain ⟨k', v'⟩ := e₀
    by_cases hk : k' = k
    · simp [GoMap.put, hk] at h
      rcases h with h | h
      · exact Or.inl h
      · exact Or.inr (List.mem_cons_of_mem _ h)
    · simp [GoMap.put, hk] at h
      rcases h with h | h
      · exact Or.inr (by simp [h])
      · rcases ih h with h' | h'
        · exact Or.inl h'
        · exact Or.inr (List.mem_cons_of_mem _ h')

theorem GoMap.mem_drop {k : String} {es : List (String × Monster)}
    {e : String × Monster} (h : e ∈ GoMap.drop k es) : e ∈ es := by
  induction es with
  | nil => simp [GoMap.drop] at h
  | cons e₀ es ih =>
    obtain ⟨k', v'⟩ := e₀
    by_cases hk : k' = k
    · simp [GoMap.drop, hk] at h
      exact List.mem_cons_of_mem _ (ih h)
    · simp [GoMap.drop, hk] at h
      rcases h with h | h
      · simp [h]
      · exact List.mem_cons_of_mem _ (ih h)

/-! ## What the two handlers return -/

theorem handleAddMonster_err {a a' : GameApplication} {metadata : Metadata}
    {inputPayload : AddMonsterPayload} {e : String}
    (h : handleAddMonster a metadata inputPayload = Res.ret (some e) a') : a' = a := by
  unfold handleAddMonster at h
  split_ifs at h with h1 h2
  · cases h; rfl
  · cases h; rfl
  · split at h
    · cases h; rfl
    · split at h <;> cases h

theorem handleAttackMonster_err {a a' : GameApplication}
    {inputPayload : AttackMonsterPayload} {e : String}
    (h : handleAttackMonster a inputPayload = Res.ret (some e) a') : a' = a := by
  unfold handleAttackMonster at h
  split_ifs at h with h1
  · cases h; rfl
  · split at h
    · cases h; rfl
    · simp only at h
      split_ifs at h with h2
      · cases h
      · split at h <;> cases h

theorem handleAddMonster_positive {a a' : GameApplication} {metadata : Metadata}
    {inputPayload : AddMonsterPayload} {err : Option String} (hinv : AllPositive a)
    (h : handleAddMonster a metadata inputPayload = Res.ret err a') : AllPositive a' := by
  unfold handleAddMonster at h
  split_ifs at h with h1 h2
  · cases h; exact hinv
  · cases h; exact hinv
  · split at h
    · cases h; exact hinv
    · split at h
      · cases h
      · rename_i monsters hassign
        cases h
        cases hm : a.state.Monsters with
        | none => simp [GoMap.assign, hm] at hassign
        | some es =>
          simp only [GoMap.assign, hm, Option.some.injEq] at hassign
          subst hassign
          intro es' hes' e he
          simp only [Option.some.injEq] at hes'
          subst hes'
          rcases GoMap.mem_put he with rfl | hmem
          · rw [GoInt.lt_iff]
            rw [GoInt.le_iff] at h2
            exact not_le.mp h2
          · exact hinv es hm e hmem

theorem handleAttackMonster_positive {a a' : GameApplication}
    {inputPayload : AttackMonsterPayload} {err : Option String} (hinv : AllPositive a)
    (h : handleAttackMonster a inputPayload = Res.ret err a') : AllPositive a' := by
  unfold handleAttackMonster at h
  split_ifs at h with h1
  · cases h; exact hinv
  · split at h
    · cases h; exact hinv
    · simp only at h
      split_ifs at h with h2
      · cases h
        intro es' hes' e he
        cases hm : a.state.Monsters with
        | none => simp [GoMap.delete, hm] at hes'
        | some es =>
          simp only [GoMap.delete, hm, Option.some.injEq] at hes'
          subst hes'
          exact hinv es hm e (GoMap.mem_drop he)
      · split at h
        · cases h
        · rename_i monsters hassign
          cases h
          cases hm : a.state.Monsters with
          | none => simp [GoMap.assign, hm] at hassign
          | some es =>
            simp only [GoMap.assign, hm, Option.some.injEq] at hassign
            subst hassign
            intro es' hes' e he
            simp only [Option.some.injEq] at hes'
            subst hes'
            rcases GoMap.mem_put he with rfl | hmem
            · rw [GoInt.lt_iff]
              rw [GoInt.le_iff] at h2
              exact not_le.mp h2
            · exact hinv es hm e hmem

/-! ## What `Inspect` and `Advance` return -/

theorem Inspect_ret (J : Json) (a : GameApplication) (env : Env) (payload : Bytes) :
    ∃ bytes, J.marshal a.state = Except.ok bytes ∧
      Inspect J a env payload = Res.ret none (a, env.Report bytes) := by
  obtain ⟨bytes, hb⟩ := J.marshal_ok a.state
  exact ⟨bytes, hb, by simp [Inspect, hb]⟩

theorem Inspect_state {J : Json} {a a' : GameApplication} {env env' : Env} {payload : Bytes}
    {err : Option String} (h : Inspect J a env payload = Res.ret err (a', env')) : a' = a := by
  obtain ⟨bytes, _, hi⟩ := Inspect_ret J a env payload
  rw [hi] at h
  cases h; rfl

theorem Inspect_no_err {J : Json} {a a' : GameApplication} {env env' : Env} {payload : Bytes}
    {e : String} (h : Inspect J a env payload = Res.ret (some e) (a', env')) : False := by
  obtain ⟨bytes, _, hi⟩ := Inspect_ret J a env payload
  rw [hi] at h
  cases h

theorem Advance_err {J : Json} {a a' : GameApplication} {env env' : Env} {metadata : Metadata}
    {deposit : Deposit} {payload : Bytes} {e : String}
    (h : Advance J a env metadata deposit payload = Res.ret (some e) (a', env')) :
    a' = a ∧ env' = env := by
  unfold Advance at h
  split at h
  · cases h; exact ⟨rfl, rfl⟩
  · split_ifs at h with h1 h2
    · split at h
      · cases h; exact ⟨rfl, rfl⟩
      · split at h
        · cases h
        · rename_i hh
          cases h
          exact ⟨handleAddMonster_err hh, rfl⟩
        · exact (Inspect_no_err h).elim
    · split at h
      · cases h; exact ⟨rfl, rfl⟩
      · split at h
        · cases h
        · rename_i hh
          cases h
          exact ⟨handleAttackMonster_err hh, rfl⟩
        · exact (Inspect_no_err h).elim
    · cases h; exact ⟨rfl, rfl⟩

theorem Advance_positive {J : Json} {a a' : GameApplication} {env env' : Env}
    {metadata : Metadata} {deposit : Deposit} {payload : Bytes} {err : Option String}
    (hinv : AllPositive a)
    (h : Advance J a env metadata deposit payload = Res.ret err (a', env')) :
    AllPositive a' := by
  unfold Advance at h
  split at h
  · cases h; exact hinv
  · split_ifs at h with h1 h2
    · split at h
      · cases h; exact hinv
      · split at h
        · cases h
        · rename_i hh
          cases h
          exact handleAddMonster_positive hinv hh
        · rename_i hh
          rw [Inspect_state h]
          exact handleAddMonster_positive hinv hh
    · split at h
      · cases h; exact hinv
      · split at h
        · cases h
        · rename_i hh
          cases h
          exact handleAttackMonster_positive hinv hh
        · rename_i hh
          rw [Inspect_state h]
          exact handleAttackMonster_positive hinv hh
    · cases h; exact hinv

theorem NewGameApplication_positive (gm : Address) : AllPositive (NewGameApplication gm) := by
  intro es hes e he
  simp only [NewGameApplication, GoMap.make, Option.some.injEq] at hes
  subst hes
  simp at he

theorem Reachable.positive {J : Json} {gm : Address} {a : GameApplication}
    (h : Reachable J gm a) : AllPositive a := by
  induction h with
  | init => exact NewGameApplication_positive gm
  | advance metadata deposit payload _ hstep ih => exact Advance_positive ih hstep
  | inspect payload _ hstep ih =>
    rw [Inspect_state hstep]
    exact ih

theorem AllPositive.index {a : GameApplication} (hinv : AllPositive a) {name : String}
    {monster : Monster} (h : a.state.Monsters.index name = some monster) :
    GoInt.zero < monster.HitPoints := by
  cases hm : a.state.Monsters with
  | none => simp [GoMap.index, hm] at h
  | some es =>
    simp only [GoMap.index, hm] at h
    exact hinv es hm (name, monster) (GoMap.find_mem h)

theorem dragonState_reachable : Reachable sampleJson sampleGM (dragonState 10) :=
  Reachable.advance ⟨sampleGM⟩ () (envelope "AddMonster" payloadAddDragon) Reachable.init
    (show Advance sampleJson (NewGameApplication sampleGM) [] ⟨sampleGM⟩ ()
        (envelope "AddMonster" payloadAddDragon)
      = Res.ret none (dragonState 10, [ascii (renderState (dragonState 10).state)]) by decide)

/-! ## The claims -/

/-- C1: in every state reachable from `NewGameApplication gm` by `Advance` and
`Inspect` calls, failing ones included, every monster stored in the mapping has
hit points above zero: every entry of the table, and every monster a read
returns. -/
theorem reachable_hitPoints_positive (J : Json) (gm : Address) (a : GameApplication)
    (h : Reachable J gm a) :
    (∀ es, a.state.Monsters = some es → ∀ e ∈ es, GoInt.zero < e.2.HitPoints) ∧
    (∀ name monster, a.state.Monsters.index name = some monster →
      GoInt.zero < monster.HitPoints) :=
  ⟨h.positive, fun _ _ hidx => h.positive.index hidx⟩

theorem reachable_hitPoints_positive_witness :
    Reachable sampleJson sampleGM (dragonState 10) ∧
    (dragonState 10).state.Monsters.index "Dragon"
      = some { Name := "Dragon", HitPoints := GoInt.ofInt 10 } ∧
    GoInt.zero < GoInt.ofInt 10 :=
  ⟨dragonState_reachable, by decide,
    (reachable_hitPoints_positive sampleJson sampleGM (dragonState 10)
      dragonState_reachable).2 "Dragon" { Name := "Dragon", HitPoints := GoInt.ofInt 10 }
      (by decide)⟩

/-- C2, as stated, fails on the nil map: on the value `new(GameApplication)` the
sender is the configured game-master, the name is not present, the hit points
are positive, and `handleAddMonster` ends in the nil-map panic instead of
succeeding. -/
theorem handleAddMonster_fresh_nil_map :
    (Metadata.mk 0).MsgSender = zeroGameApplication.gm ∧
    zeroGameApplication.state.Monsters.index "Goblin" = none ∧
    GoInt.zero < GoInt.ofInt 5 ∧
    handleAddMonster zeroGameApplication (Metadata.mk 0)
      { Name := "Goblin", HitPoints := GoInt.ofInt 5 } = Res.panic nilMapPanic := by
  decide

/-- C2, amended: for every state whose mapping is allocated (not nil), every name
not present in it and every hit points above zero, `handleAddMonster` with the
game-master as sender returns no error, and the mapping then holds under that
name the monster with exactly that name and those hit points. -/
theorem handleAddMonster_fresh_stores (a : GameApplication) (metadata : Metadata)
    (inputPayload : AddMonsterPayload)
    (hmap : a.state.Monsters ≠ none)
    (hgm : metadata.MsgSender = a.gm)
    (hhp : GoInt.zero < inputPayload.HitPoints)
    (hfresh : a.state.Monsters.index inputPayload.Name = none) :
    ∃ a', handleAddMonster a metadata inputPayload = Res.ret none a' ∧
      a'.state.Monsters.index inputPayload.Name
        = some { Name := inputPayload.Name, HitPoints := inputPayload.HitPoints } := by
  have hnle : ¬ inputPayload.HitPoints ≤ GoInt.zero := by
    rw [GoInt.le_iff]
    rw [GoInt.lt_iff] at hhp
    exact not_le.mpr hhp
  cases hm : a.state.Monsters with
  | none => exact absurd hm hmap
  | some es =>
    rw [hm] at hfresh
    refine ⟨{ a with state := { Monsters := some (GoMap.put inputPayload.Name inputPayload es) } },
      ?_, ?_⟩
    · simp [handleAddMonster, hgm, hnle, hfresh, hm, GoMap.assign]
    · simp [GoMap.index, GoMap.find_put_same]

theorem handleAddMonster_fresh_stores_witness :
    handleAddMonster (dragonState 10) (Metadata.mk sampleGM)
        { Name := "Goblin", HitPoints := GoInt.ofInt 5 }
      = Res.ret none
          { gm := sampleGM,
            state := { Monsters := some (
              ("Dragon", { Name := "Dragon", HitPoints := GoInt.ofInt 10 }) ::
              ("Goblin", { Name := "Goblin", HitPoints := GoInt.ofInt 5 }) :: []) } } ∧
    ∃ a', handleAddMonster (dragonState 10) (Metadata.mk sampleGM)
        { Name := "Goblin", HitPoints := GoInt.ofInt 5 } = Res.ret none a' ∧
      a'.state.Monsters.index "Goblin"
        = some { Name := "Goblin", HitPoints := GoInt.ofInt 5 } :=
  ⟨by decide,
    handleAddMonster_fresh_stores (dragonState 10) (Metadata.mk sampleGM)
      { Name := "Goblin", HitPoints := GoInt.ofInt 5 }
      (by decide) (by decide) (by decide) (by decide)⟩

/-- C3: for every state and every payload, `handleAddMonster` from a sender that is
not the game-master returns the error "only GM can add monsters" and leaves the
application, its mapping included, as it was. -/
theorem handleAddMonster_not_gm (a : GameApplication) (metadata : Metadata)
    (inputPayload : AddMonsterPayload) (hgm : metadata.MsgSender ≠ a.gm) :
    handleAddMonster a metadata inputPayload
      = Res.ret (some "only GM can add monsters") a := by
  simp [handleAddMonster, hgm]

theorem handleAddMonster_not_gm_witness :
    (NewGameApplication sampleGM).state.Monsters = some [] ∧
    handleAddMonster (NewGameApplication sampleGM) (Metadata.mk 7)
        { Name := "Goblin", HitPoints := GoInt.ofInt 5 }
      = Res.ret (some "only GM can add monsters") (NewGameApplication sampleGM) ∧
    Advance sampleJson (NewGameApplication sampleGM) [] (Metadata.mk 7) ()
        (envelope "AddMonster" payloadAddGoblin)
      = Res.ret (some "only GM can add monsters") (NewGameApplication sampleGM, []) :=
  ⟨by decide,
    handleAddMonster_not_gm (NewGameApplication sampleGM) (Metadata.mk 7)
      { Name := "Goblin", HitPoints := GoInt.ofInt 5 } (by decide),
    by decide⟩

/-- C4: for every monster stored with hit points `h > 0` and every damage `d ≥ 0`,
`handleAttackMonster` on its name returns no error; when `d < h` the monster
stays under its name with its name unchanged and hit points exactly `h - d`,
and when `d ≥ h` the name is no longer present in the mapping. -/
theorem handleAttackMonster_stored (a : GameApplication) (name : String) (monster : Monster)
    (damage : GoInt)
    (hstored : a.state.Monsters.index name = some monster)
    (hpos : GoInt.zero < monster.HitPoints)
    (hdamage : GoInt.zero ≤ damage) :
    ∃ a', handleAttackMonster a { MonsterName := name, Damage := damage } = Res.ret none a' ∧
      (damage < monster.HitPoints →
        ∃ monster', a'.state.Monsters.index name = some monster' ∧
          monster'.Name = monster.Name ∧
          monster'.HitPoints.toInt = monster.HitPoints.toInt - damage.toInt) ∧
      (monster.HitPoints ≤ damage → a'.state.Monsters.index name = none) := by
  have hnneg : ¬ damage < GoInt.zero := by
    rw [GoInt.lt_iff]
    rw [GoInt.le_iff] at hdamage
    exact not_lt.mpr hdamage
  have hsub := GoInt.sub_toInt_of_pos monster.HitPoints damage hpos hnneg
  cases hm : a.state.Monsters with
  | none => simp [GoMap.index, hm] at hstored
  | some es =>
    rw [hm] at hstored
    by_cases hle : monster.HitPoints - damage ≤ GoInt.zero
    · refine ⟨{ a with state := { Monsters := some (GoMap.drop name es) } }, ?_, ?_, ?_⟩
      · simp [handleAttackMonster, hnneg, hstored, hle, hm, GoMap.delete]
      · intro hlt
        rw [GoInt.le_iff, hsub, GoInt.zero_toInt] at hle
        rw [GoInt.lt_iff] at hlt
        omega
      · intro _
        simp [GoMap.index, GoMap.find_drop_same]
    · refine ⟨{ a with state := { Monsters := some (GoMap.put name
          { monster with HitPoints := monster.HitPoints - damage } es) } }, ?_, ?_, ?_⟩
      · simp [handleAttackMonster, hnneg, hstored, hle, hm, GoMap.assign]
      · intro _
        exact ⟨{ monster with HitPoints := monster.HitPoints - damage },
          by simp [GoMap.index, GoMap.find_put_same], rfl, hsub⟩
      · intro hge
        rw [GoInt.le_iff, hsub, GoInt.zero_toInt] at hle
        rw [GoInt.le_iff] at hge
        omega

theorem handleAttackMonster_stored_witness :
    handleAttackMonster (dragonState 10) { MonsterName := "Dragon", Damage := GoInt.ofInt 4 }
      = Res.ret none (dragonState 6) ∧
    ∃ a', handleAttackMonster (dragonState 10)
        { MonsterName := "Dragon", Damage := GoInt.ofInt 4 } = Res.ret none a' ∧
      (GoInt.ofInt 4 < GoInt.ofInt 10 →
        ∃ monster', a'.state.Monsters.index "Dragon" = some monster' ∧
          monster'.Name = "Dragon" ∧
          monster'.HitPoints.toInt = (GoInt.ofInt 10).toInt - (GoInt.ofInt 4).toInt) ∧
      (GoInt.ofInt 10 ≤ GoInt.ofInt 4 → a'.state.Monsters.index "Dragon" = none) :=
  ⟨by decide,
    handleAttackMonster_stored (dragonState 10) "Dragon"
      { Name := "Dragon", HitPoints := GoInt.ofInt 10 } (GoInt.ofInt 4)
      (by decide) (by decide) (by decide)⟩

/-- C5: `Advance` is atomic: for every state, sender and command bytes, when
`Advance` returns an error the monster mapping is the one it was before the
call; the whole application value is, and no report has been emitted. -/
theorem Advance_error_unchanged (J : Json) (a a' : GameApplication) (env env' : Env)
    (metadata : Metadata) (deposit : Deposit) (payload : Bytes) (e : String)
    (h : Advance J a env metadata deposit payload = Res.ret (some e) (a', env')) :
    a'.state.Monsters = a.state.Monsters ∧ a' = a ∧ env' = env := by
  obtain ⟨ha, henv⟩ := Advance_err h
  exact ⟨by rw [ha], ha, henv⟩

theorem Advance_error_unchanged_witness :
    Advance sampleJson (dragonState 10) [] (Metadata.mk sampleGM) ()
        (envelope "AddMonster" payloadAddDragon)
      = Res.ret (some "monster with this name already exists") (dragonState 10, []) ∧
    (dragonState 10).state.Monsters = (dragonState 10).state.Monsters ∧
    dragonState 10 = dragonState 10 ∧ ([] : Env) = [] :=
  ⟨by decide,
    Advance_error_unchanged sampleJson (dragonState 10) (dragonState 10) [] []
      (Metadata.mk sampleGM) () (envelope "AddMonster" payloadAddDragon)
      "monster with this name already exists" (by decide)⟩

/-- C6: for every state and sender, `handleAddMonster` with hit points zero or
negative returns an error and leaves the application, its mapping included, as
it was. -/
theorem handleAddMonster_nonpositive (a : GameApplication) (metadata : Metadata)
    (inputPayload : AddMonsterPayload) (hhp : inputPayload.HitPoints ≤ GoInt.zero) :
    ∃ e, handleAddMonster a metadata inputPayload = Res.ret (some e) a := by
  by_cases hgm : metadata.MsgSender = a.gm
  · exact ⟨"hit points must be positive", by simp [handleAddMonster, hgm, hhp]⟩
  · exact ⟨"only GM can add monsters", by simp [handleAddMonster, hgm]⟩

theorem handleAddMonster_nonpositive_witness :
    handleAddMonster (dragonState 10) (Metadata.mk sampleGM)
        { Name := "Goblin", HitPoints := GoInt.ofInt (-3) }
      = Res.ret (some "hit points must be positive") (dragonState 10) ∧
    ∃ e, handleAddMonster (dragonState 10) (Metadata.mk sampleGM)
        { Name := "Goblin", HitPoints := GoInt.ofInt 0 } = Res.ret (some e) (dragonState 10) :=
  ⟨by decide,
    handleAddMonster_nonpositive (dragonState 10) (Metadata.mk sampleGM)
      { Name := "Goblin", HitPoints := GoInt.ofInt 0 } (by decide)⟩

/-- C7: for every state and every name already present in the mapping,
`handleAddMonster` from the game-master with that name and hit points above
zero returns the error "monster with this name already exists" and leaves the
application as it was, so the monster already stored keeps its hit points. -/
theorem handleAddMonster_existing (a : GameApplication) (metadata : Metadata)
    (inputPayload : AddMonsterPayload) (existing : Monster)
    (hgm : metadata.MsgSender = a.gm)
    (hhp : GoInt.zero < inputPayload.HitPoints)
    (hpresent : a.state.Monsters.index inputPayload.Name = some existing) :
    handleAddMonster a metadata inputPayload
        = Res.ret (some "monster with this name already exists") a ∧
      a.state.Monsters.index inputPayload.Name = some existing := by
  have hnle : ¬ inputPayload.HitPoints ≤ GoInt.zero := by
    rw [GoInt.le_iff]
    rw [GoInt.lt_iff] at hhp
    exact not_le.mpr hhp
  exact ⟨by simp [handleAddMonster, hgm, hnle, hpresent], hpresent⟩

theorem handleAddMonster_existing_witness :
    handleAddMonster (dragonState 10) (Metadata.mk sampleGM)
        { Name := "Dragon", HitPoints := GoInt.ofInt 99 }
        = Res.ret (some "monster with this name already exists") (dragonState 10) ∧
      (dragonState 10).state.Monsters.index "Dragon"
        = some { Name := "Dragon", HitPoints := GoInt.ofInt 10 } :=
  handleAddMonster_existing (dragonState 10) (Metadata.mk sampleGM)
    { Name := "Dragon", HitPoints := GoInt.ofInt 99 }
    { Name := "Dragon", HitPoints := GoInt.ofInt 10 } (by decide) (by decide) (by decide)

/-- C8: for every state and every monster name, present or absent,
`handleAttackMonster` with a damage below zero returns the error
"negative damage" and leaves the application, its mapping included, as it was;
no hit points change, so none increase. -/
theorem handleAttackMonster_negative (a : GameApplication)
    (inputPayload : AttackMonsterPayload) (hneg : inputPayload.Damage < GoInt.zero) :
    handleAttackMonster a inputPayload = Res.ret (some "negative damage") a := by
  simp [handleAttackMonster, hneg]

theorem handleAttackMonster_negative_witness :
    handleAttackMonster (dragonState 10) { MonsterName := "Dragon", Damage := GoInt.ofInt (-5) }
      = Res.ret (some "negative damage") (dragonState 10) :=
  handleAttackMonster_negative (dragonState 10)
    { MonsterName := "Dragon", Damage := GoInt.ofInt (-5) } (by decide)

/-- C9: for every state, every monster name not present in the mapping and every
damage of zero or more, `handleAttackMonster` returns the error
"monster not found" and leaves the application as it was; the name stays
absent. -/
theorem handleAttackMonster_absent (a : GameApplication)
    (inputPayload : AttackMonsterPayload)
    (habsent : a.state.Monsters.index inputPayload.MonsterName = none)
    (hdamage : GoInt.zero ≤ inputPayload.Damage) :
    handleAttackMonster a inputPayload = Res.ret (some "monster not found") a ∧
      a.state.Monsters.index inputPayload.MonsterName = none := by
  have hnneg : ¬ inputPayload.Damage < GoInt.zero := by
    rw [GoInt.lt_iff]
    rw [GoInt.le_iff] at hdamage
    exact not_lt.mpr hdamage
  exact ⟨by simp [handleAttackMonster, hnneg, habsent], habsent⟩

theorem handleAttackMonster_absent_witness :
    handleAttackMonster (dragonState 10) { MonsterName := "Goblin", Damage := GoInt.ofInt 3 }
        = Res.ret (some "monster not found") (dragonState 10) ∧
      (dragonState 10).state.Monsters.index "Goblin" = none :=
  handleAttackMonster_absent (dragonState 10)
    { MonsterName := "Goblin", Damage := GoInt.ofInt 3 } (by decide) (by decide)

/-- C10: for every decoded envelope whose kind is neither "AddMonster" nor
"AttackMonster", the empty kind included, `Advance` returns the error
"invalid input kind: " followed by the kind, emits no report and leaves the
application as it was, whatever the sender and the payload. -/
theorem Advance_unknown_kind (J : Json) (a : GameApplication) (env : Env)
    (metadata : Metadata) (deposit : Deposit) (payload : Bytes) (input : Input)
    (hdecoded : J.unmarshalInput payload = Except.ok input)
    (hadd : input.Kind ≠ AddMonster)
    (hattack : input.Kind ≠ AttackMonster) :
    Advance J a env metadata deposit payload
      = Res.ret (some ("invalid input kind: " ++ input.Kind)) (a, env) := by
  simp [Advance, hdecoded, hadd, hattack]

theorem Advance_unknown_kind_witness :
    Advance sampleJson (dragonState 10) [] (Metadata.mk sampleGM) ()
        (envelope "Heal" payloadAttackDragon4)
      = Res.ret (some "invalid input kind: Heal") (dragonState 10, []) ∧
    Advance sampleJson (dragonState 10) [] (Metadata.mk 7) () (ascii "\x7b\x7d")
      = Res.ret (some "invalid input kind: ") (dragonState 10, []) :=
  ⟨Advance_unknown_kind sampleJson (dragonState 10) [] (Metadata.mk sampleGM) ()
      (envelope "Heal" payloadAttackDragon4)
      { Kind := "Heal", Payload := payloadAttackDragon4 } rfl (by decide) (by decide),
    Advance_unknown_kind sampleJson (dragonState 10) [] (Metadata.mk 7) ()
      (ascii "\x7b\x7d") { Kind := "", Payload := [] } rfl (by decide) (by decide)⟩

/-! ## More on what the handlers and `Advance` return -/

theorem handleAddMonster_ok {a a' : GameApplication} {metadata : Metadata}
    {inputPayload : AddMonsterPayload}
    (h : handleAddMonster a metadata inputPayload = Res.ret none a') :
    metadata.MsgSender = a.gm ∧ ¬ inputPayload.HitPoints ≤ GoInt.zero ∧
    ∃ es, a.state.Monsters = some es ∧ GoMap.find inputPayload.Name es = none ∧
      a' = { a with state := { Monsters := some (GoMap.put inputPayload.Name inputPayload es) } } := by
  unfold handleAddMonster at h
  split_ifs at h with h1 h2
  · cases h
  · cases h
  · split at h
    · cases h
    · rename_i hidx
      split at h
      · cases h
      · rename_i monsters hassign
        cases h
        cases hm : a.state.Monsters with
        | none => simp [GoMap.assign, hm] at hassign
        | some es =>
          simp only [GoMap.assign, hm, Option.some.injEq] at hassign
          subst hassign
          rw [hm] at hidx
          exact ⟨not_not.mp h1, h2, es, rfl, hidx, rfl⟩

theorem handleAttackMonster_ok {a a' : GameApplication} {inputPayload : AttackMonsterPayload}
    (h : handleAttackMonster a inputPayload = Res.ret none a') :
    ¬ inputPayload.Damage < GoInt.zero ∧
    ∃ es found, a.state.Monsters = some es ∧
      GoMap.find inputPayload.MonsterName es = some found ∧
      ((found.HitPoints - inputPayload.Damage ≤ GoInt.zero ∧
          a' = { a with state := { Monsters := some (GoMap.drop inputPayload.MonsterName es) } }) ∨
       (¬ found.HitPoints - inputPayload.Damage ≤ GoInt.zero ∧
          a' = { a with state := { Monsters := some (GoMap.put inputPayload.MonsterName
            { found with HitPoints := found.HitPoints - inputPayload.Damage } es) } })) := by
  unfold handleAttackMonster at h
  split_ifs at h with h1
  · cases h
  · split at h
    · cases h
    · rename_i found hidx
      cases hm : a.state.Monsters with
      | none => simp [GoMap.index, hm] at hidx
      | some es =>
        rw [hm] at hidx
        simp only at h
        split_ifs at h with h2
        · cases h
          exact ⟨h1, es, found, rfl, hidx, Or.inl ⟨h2, by simp [GoMap.delete, hm]⟩⟩
        · split at h
          · cases h
          · rename_i monsters hassign
            cases h
            simp only [GoMap.assign, hm, Option.some.injEq] at hassign
            subst hassign
            exact ⟨h1, es, found, rfl, hidx, Or.inr ⟨h2, rfl⟩⟩

/-- A successful `Advance` ran one of the two handlers to success on a decoded
payload and ended in the `Inspect` of the state the handler left. -/
theorem Advance_ok {J : Json} {a a' : GameApplication} {env env' : Env} {metadata : Metadata}
    {deposit : Deposit} {payload : Bytes}
    (h : Advance J a env metadata deposit payload = Res.ret none (a', env')) :
    ∃ input post, J.unmarshalInput payload = Except.ok input ∧
      ((input.Kind = AddMonster ∧ ∃ p, J.unmarshalAddMonster input.Payload = Except.ok p ∧
          handleAddMonster a metadata p = Res.ret none post) ∨
       (input.Kind = AttackMonster ∧ ∃ p, J.unmarshalAttackMonster input.Payload = Except.ok p ∧
          handleAttackMonster a p = Res.ret none post)) ∧
      Inspect J post env [] = Res.ret none (a', env') := by
  unfold Advance at h
  split at h
  · cases h
  · rename_i input hin
    split_ifs at h with h1 h2
    · split at h
      · cases h
      · rename_i p hp
        split at h
        · cases h
        · cases h
        · rename_i post hh
          exact ⟨input, post, hin, Or.inl ⟨h1, p, hp, hh⟩, h⟩
    · split at h
      · cases h
      · rename_i p hp
        split at h
        · cases h
        · cases h
        · rename_i post hh
          exact ⟨input, post, hin, Or.inr ⟨h2, p, hp, hh⟩, h⟩
    · cases h

/-! ## The claims, continued -/

/-- C11: whenever `Advance` applies a command successfully it emits exactly one
report: the environment grows by one report, that report is the serialization
of the state the handler left (the state after the command), and it is the
report any `Inspect` of that state emits. -/
theorem Advance_reports_post_state (J : Json) (a a' : GameApplication) (env env' : Env)
    (metadata : Metadata) (deposit : Deposit) (payload : Bytes)
    (h : Advance J a env metadata deposit payload = Res.ret none (a', env')) :
    ∃ bytes, J.marshal a'.state = Except.ok bytes ∧ env' = env ++ [bytes] ∧
      ((∃ p, handleAddMonster a metadata p = Res.ret none a') ∨
       (∃ p, handleAttackMonster a p = Res.ret none a')) ∧
      ∀ (env₂ : Env) (query : Bytes),
        Inspect J a' env₂ query = Res.ret none (a', env₂ ++ [bytes]) := by
  obtain ⟨input, post, _, hhandler, hinspect⟩ := Advance_ok h
  obtain ⟨bytes, hbytes, hi⟩ := Inspect_ret J post env []
  rw [hi] at hinspect
  cases hinspect
  refine ⟨bytes, hbytes, rfl, ?_, ?_⟩
  · rcases hhandler with ⟨_, p, _, hp⟩ | ⟨_, p, _, hp⟩
    · exact Or.inl ⟨p, hp⟩
    · exact Or.inr ⟨p, hp⟩
  · intro env₂ query
    simp [Inspect, hbytes, Env.Report]

theorem Advance_reports_post_state_witness :
    Advance sampleJson (dragonState 10) [] (Metadata.mk 7) ()
        (envelope "AttackMonster" payloadAttackDragon4)
      = Res.ret none (dragonState 6, [ascii (renderState (dragonState 6).state)]) ∧
    ascii (renderState (dragonState 6).state) ≠ ascii (renderState (dragonState 10).state) ∧
    ∃ bytes, sampleJson.marshal (dragonState 6).state = Except.ok bytes ∧
      [ascii (renderState (dragonState 6).state)] = ([] : Env) ++ [bytes] :=
  ⟨by decide, by decide,
    (Advance_reports_post_state sampleJson (dragonState 10) (dragonState 6) []
      [ascii (renderState (dragonState 6).state)] (Metadata.mk 7) ()
      (envelope "AttackMonster" payloadAttackDragon4) (by decide)).imp
      fun _ hb => ⟨hb.1, hb.2.1⟩⟩

/-- C12: `Inspect` is a pure read that always succeeds: for every state and every
query it returns no error, leaves the application (mapping and game-master)
as it was and emits the serialization of the state; a second `Inspect` right
after it emits the same report. -/
theorem Inspect_pure (J : Json) (a : GameApplication) (env : Env) (query query₂ : Bytes) :
    ∃ bytes, J.marshal a.state = Except.ok bytes ∧
      Inspect J a env query = Res.ret none (a, env ++ [bytes]) ∧
      Inspect J a (env ++ [bytes]) query₂ = Res.ret none (a, env ++ [bytes] ++ [bytes]) := by
  obtain ⟨bytes, hbytes⟩ := J.marshal_ok a.state
  exact ⟨bytes, hbytes, by simp [Inspect, hbytes, Env.Report],
    by simp [Inspect, hbytes, Env.Report]⟩

/-- C13: starting from `NewGameApplication gm`, AddMonster("Dragon", 10) sent by
`gm` returns no error and leaves exactly Dragon with 10 hit points; then
AttackMonster("Dragon", 4) returns no error and leaves exactly Dragon with 6;
then AttackMonster("Dragon", 6) returns no error and leaves the empty
mapping. -/
theorem dragon_scenario (gm : Address) :
    handleAddMonster (NewGameApplication gm) (Metadata.mk gm)
        { Name := "Dragon", HitPoints := GoInt.ofInt 10 }
      = Res.ret none (dragonOnly gm 10) ∧
    (dragonOnly gm 10).state.Monsters
      = some [("Dragon", { Name := "Dragon", HitPoints := GoInt.ofInt 10 })] ∧
    handleAttackMonster (dragonOnly gm 10) { MonsterName := "Dragon", Damage := GoInt.ofInt 4 }
      = Res.ret none (dragonOnly gm 6) ∧
    (dragonOnly gm 6).state.Monsters
      = some [("Dragon", { Name := "Dragon", HitPoints := GoInt.ofInt 6 })] ∧
    handleAttackMonster (dragonOnly gm 6) { MonsterName := "Dragon", Damage := GoInt.ofInt 6 }
      = Res.ret none { gm := gm, state := { Monsters := some [] } } := by
  have h10 : ¬ GoInt.ofInt 10 ≤ GoInt.zero := by decide
  have h4 : ¬ GoInt.ofInt 4 < GoInt.zero := by decide
  have h6 : ¬ GoInt.ofInt 6 < GoInt.zero := by decide
  have hsub4 : GoInt.ofInt 10 - GoInt.ofInt 4 = GoInt.ofInt 6 := by decide
  have hsub6 : GoInt.ofInt 6 - GoInt.ofInt 6 = GoInt.zero := by decide
  have h6pos : ¬ GoInt.ofInt 6 ≤ GoInt.zero := by decide
  have h0 : GoInt.zero ≤ GoInt.zero := by decide
  refine ⟨?_, rfl, ?_, rfl, ?_⟩
  · simp [handleAddMonster, NewGameApplication, dragonOnly, GoMap.make, GoMap.index,
      GoMap.find, GoMap.assign, GoMap.put, h10]
  · simp [handleAttackMonster, dragonOnly, GoMap.index, GoMap.find, GoMap.assign, GoMap.put,
      h4, hsub4, h6pos]
  · simp [handleAttackMonster, dragonOnly, GoMap.index, GoMap.find, GoMap.delete, GoMap.drop,
      h6, hsub6, h0]

/-! ## Reachable states keep an allocated mapping, keyed by name -/

theorem GoMap.keys_put (k : String) (v : Monster) (es : List (String × Monster)) :
    (GoMap.put k v es).map Prod.fst
      = if k ∈ es.map Prod.fst then es.map Prod.fst else es.map Prod.fst ++ [k] := by
  induction es with
  | nil => simp [GoMap.put]
  | cons e es ih =>
    obtain ⟨k', v'⟩ := e
    by_cases hk : k' = k
    · subst hk
      simp [GoMap.put]
    · have hk' : ¬ k = k' := fun h => hk h.symm
      by_cases hmem : k ∈ es.map Prod.fst
      · rw [if_pos hmem] at ih
        simp only [GoMap.put, hk, if_false, List.map_cons, ih]
        rw [if_pos (List.mem_cons_of_mem _ hmem)]
      · rw [if_neg hmem] at ih
        simp only [GoMap.put, hk, if_false, List.map_cons, ih]
        have hnot : k ∉ k' :: List.map Prod.fst es := by
          simp only [List.mem_cons, not_or]
          exact ⟨hk', hmem⟩
        rw [if_neg hnot]
        rfl

theorem GoMap.nodup_keys_put (k : String) (v : Monster) (es : List (String × Monster))
    (h : (es.map Prod.fst).Nodup) : ((GoMap.put k v es).map Prod.fst).Nodup := by
  rw [GoMap.keys_put]
  split_ifs with hmem
  · exact h
  · exact List.Nodup.append h (List.nodup_singleton k) (by simpa using hmem)

theorem GoMap.keys_drop_sublist (k : String) (es : List (String × Monster)) :
    List.Sublist ((GoMap.drop k es).map Prod.fst) (es.map Prod.fst) := by
  induction es with
  | nil => simp [GoMap.drop]
  | cons e es ih =>
    obtain ⟨k', v'⟩ := e
    by_cases hk : k' = k
    · simp only [GoMap.drop, hk, if_true, List.map_cons]
      exact List.Sublist.cons _ ih
    · simp only [GoMap.drop, hk, if_false, List.map_cons]
      exact List.Sublist.cons₂ _ ih

theorem GoMap.nodup_keys_drop (k : String) (es : List (String × Monster))
    (h : (es.map Prod.fst).Nodup) : ((GoMap.drop k es).map Prod.fst).Nodup :=
  List.Nodup.sublist (GoMap.keys_drop_sublist k es) h

theorem handleAddMonster_keyed {a a' : GameApplication} {metadata : Metadata}
    {inputPayload : AddMonsterPayload} {err : Option String} (hinv : KeyedByName a)
    (h : handleAddMonster a metadata inputPayload = Res.ret err a') : KeyedByName a' := by
  cases err with
  | some e => rw [handleAddMonster_err h]; exact hinv
  | none =>
    obtain ⟨_, _, es, hm, _, rfl⟩ := handleAddMonster_ok h
    intro es' hes'
    simp only [Option.some.injEq] at hes'
    subst hes'
    obtain ⟨hname, hnodup⟩ := hinv es hm
    refine ⟨?_, GoMap.nodup_keys_put _ _ es hnodup⟩
    intro e he
    rcases GoMap.mem_put he with rfl | hmem
    · rfl
    · exact hname e hmem

theorem handleAttackMonster_keyed {a a' : GameApplication}
    {inputPayload : AttackMonsterPayload} {err : Option String} (hinv : KeyedByName a)
    (h : handleAttackMonster a inputPayload = Res.ret err a') : KeyedByName a' := by
  cases err with
  | some e => rw [handleAttackMonster_err h]; exact hinv
  | none =>
    obtain ⟨_, es, found, hm, hfind, hcase⟩ := handleAttackMonster_ok h
    obtain ⟨hname, hnodup⟩ := hinv es hm
    rcases hcase with ⟨_, rfl⟩ | ⟨_, rfl⟩
    · intro es' hes'
      simp only [Option.some.injEq] at hes'
      subst hes'
      exact ⟨fun e he => hname e (GoMap.mem_drop he), GoMap.nodup_keys_drop _ es hnodup⟩
    · intro es' hes'
      simp only [Option.some.injEq] at hes'
      subst hes'
      refine ⟨?_, GoMap.nodup_keys_put _ _ es hnodup⟩
      intro e he
      rcases GoMap.mem_put he with rfl | hmem
      · exact hname (inputPayload.MonsterName, found) (GoMap.find_mem hfind)
      · exact hname e hmem

theorem handleAddMonster_allocated {a a' : GameApplication} {metadata : Metadata}
    {inputPayload : AddMonsterPayload} {err : Option String} (hinv : a.state.Monsters ≠ none)
    (h : handleAddMonster a metadata inputPayload = Res.ret err a') :
    a'.state.Monsters ≠ none := by
  cases err with
  | some e => rw [handleAddMonster_err h]; exact hinv
  | none =>
    obtain ⟨_, _, es, _, _, rfl⟩ := handleAddMonster_ok h
    simp

theorem handleAttackMonster_allocated {a a' : GameApplication}
    {inputPayload : AttackMonsterPayload} {err : Option String}
    (hinv : a.state.Monsters ≠ none)
    (h : handleAttackMonster a inputPayload = Res.ret err a') :
    a'.state.Monsters ≠ none := by
  cases err with
  | some e => rw [handleAttackMonster_err h]; exact hinv
  | none =>
    obtain ⟨_, es, found, _, _, hcase⟩ := handleAttackMonster_ok h
    rcases hcase with ⟨_, rfl⟩ | ⟨_, rfl⟩ <;> simp

/-- Whatever `Advance` returns, the state it leaves is the one it started from
or the one a handler left on a returning call. -/
theorem Advance_state {J : Json} {a a' : GameApplication} {env env' : Env}
    {metadata : Metadata} {deposit : Deposit} {payload : Bytes} {err : Option String}
    (h : Advance J a env metadata deposit payload = Res.ret err (a', env')) :
    a' = a ∨ (∃ p, handleAddMonster a metadata p = Res.ret none a') ∨
      (∃ p, handleAttackMonster a p = Res.ret none a') := by
  cases err with
  | some e => exact Or.inl (Advance_err h).1
  | none =>
    obtain ⟨input, post, _, hhandler, hinspect⟩ := Advance_ok h
    have hpost := Inspect_state hinspect
    subst hpost
    rcases hhandler with ⟨_, p, _, hp⟩ | ⟨_, p, _, hp⟩
    · exact Or.inr (Or.inl ⟨p, hp⟩)
    · exact Or.inr (Or.inr ⟨p, hp⟩)

theorem Reachable.keyed {J : Json} {gm : Address} {a : GameApplication}
    (h : Reachable J gm a) : KeyedByName a := by
  induction h with
  | init =>
    intro es hes
    simp only [NewGameApplication, GoMap.make, Option.some.injEq] at hes
    subst hes
    simp
  | advance metadata deposit payload _ hstep ih =>
    rcases Advance_state hstep with rfl | ⟨p, hp⟩ | ⟨p, hp⟩
    · exact ih
    · exact handleAddMonster_keyed ih hp
    · exact handleAttackMonster_keyed ih hp
  | inspect payload _ hstep ih =>
    rw [Inspect_state hstep]
    exact ih

theorem Reachable.allocated {J : Json} {gm : Address} {a : GameApplication}
    (h : Reachable J gm a) : a.state.Monsters ≠ none := by
  induction h with
  | init => simp [NewGameApplication, GoMap.make]
  | advance metadata deposit payload _ hstep ih =>
    rcases Advance_state hstep with rfl | ⟨p, hp⟩ | ⟨p, hp⟩
    · exact ih
    · exact handleAddMonster_allocated ih hp
    · exact handleAttackMonster_allocated ih hp
  | inspect payload _ hstep ih =>
    rw [Inspect_state hstep]
    exact ih

theorem handleAddMonster_fresh {a : GameApplication} {metadata : Metadata}
    {inputPayload : AddMonsterPayload} {es : List (String × Monster)}
    (hm : a.state.Monsters = some es) (hgm : metadata.MsgSender = a.gm)
    (hhp : GoInt.zero < inputPayload.HitPoints)
    (hfresh : a.state.Monsters.index inputPayload.Name = none) :
    handleAddMonster a metadata inputPayload
      = Res.ret none
          { a with state := { Monsters := some (GoMap.put inputPayload.Name inputPayload es) } } := by
  have hnle : ¬ inputPayload.HitPoints ≤ GoInt.zero := by
    rw [GoInt.le_iff]
    rw [GoInt.lt_iff] at hhp
    exact not_le.mpr hhp
  rw [hm] at hfresh
  simp [handleAddMonster, hgm, hnle, hfresh, hm, GoMap.assign]

/-- C14, as stated, fails: one `Advance` from `NewGameApplication` with an
AddMonster whose name is the empty string, sent by the game-master, returns no
error and leaves a stored monster whose name is empty. -/
theorem nameless_monster_reachable :
    Advance namelessJson (NewGameApplication sampleGM) [] (Metadata.mk sampleGM) ()
        (envelope "AddMonster" payloadAddNameless)
      = Res.ret none (namelessState, [ascii (renderState namelessState.state)]) ∧
    Reachable namelessJson sampleGM namelessState ∧
    ∃ monster, namelessState.state.Monsters.index "" = some monster ∧ monster.Name = "" :=
  ⟨by decide,
    Reachable.advance (Metadata.mk sampleGM) () (envelope "AddMonster" payloadAddNameless)
      Reachable.init
      (show Advance namelessJson (NewGameApplication sampleGM) [] (Metadata.mk sampleGM) ()
          (envelope "AddMonster" payloadAddNameless)
        = Res.ret none (namelessState, [ascii (renderState namelessState.state)]) by decide),
    ⟨{ Name := "", HitPoints := GoInt.ofInt 5 }, by decide, rfl⟩⟩

/-- C14, amended: a monster's name may be empty.  In every state reachable from
`NewGameApplication gm` that holds no monster under the empty name, an
AddMonster with the empty name and hit points above zero, sent by the
game-master, returns no error and stores the monster with the empty name. -/
theorem handleAddMonster_empty_name (J : Json) (gm : Address) (a : GameApplication)
    (metadata : Metadata) (hitPoints : GoInt)
    (hreach : Reachable J gm a)
    (hgm : metadata.MsgSender = a.gm)
    (hhp : GoInt.zero < hitPoints)
    (hfresh : a.state.Monsters.index "" = none) :
    ∃ a', handleAddMonster a metadata { Name := "", HitPoints := hitPoints } = Res.ret none a' ∧
      a'.state.Monsters.index "" = some { Name := "", HitPoints := hitPoints } := by
  cases hm : a.state.Monsters with
  | none => exact absurd hm hreach.allocated
  | some es =>
    refine ⟨_, handleAddMonster_fresh hm hgm hhp hfresh, ?_⟩
    simp [GoMap.index, GoMap.find_put_same]

theorem handleAddMonster_empty_name_witness :
    ∃ a', handleAddMonster (NewGameApplication sampleGM) (Metadata.mk sampleGM)
        { Name := "", HitPoints := GoInt.ofInt 5 } = Res.ret none a' ∧
      a'.state.Monsters.index "" = some { Name := "", HitPoints := GoInt.ofInt 5 } :=
  handleAddMonster_empty_name sampleJson sampleGM (NewGameApplication sampleGM)
    (Metadata.mk sampleGM) (GoInt.ofInt 5) Reachable.init (by decide) (by decide) (by decide)

/-- C15: in every state reachable from `NewGameApplication gm` by `Advance` and
`Inspect` calls, every monster is stored under a key equal to its name field:
each monster a read returns, and each entry of the table; and the names of the
stored monsters are pairwise different. -/
theorem reachable_keyed_by_name (J : Json) (gm : Address) (a : GameApplication)
    (h : Reachable J gm a) :
    (∀ name monster, a.state.Monsters.index name = some monster → monster.Name = name) ∧
    (∀ es, a.state.Monsters = some es →
      (∀ e ∈ es, e.2.Name = e.1) ∧ (es.map fun e => e.2.Name).Nodup) := by
  have hinv := h.keyed
  constructor
  · intro name monster hidx
    cases hm : a.state.Monsters with
    | none => simp [GoMap.index, hm] at hidx
    | some es =>
      simp only [GoMap.index, hm] at hidx
      exact (hinv es hm).1 (name, monster) (GoMap.find_mem hidx)
  · intro es hm
    obtain ⟨hname, hnodup⟩ := hinv es hm
    refine ⟨hname, ?_⟩
    have hsame : (es.map fun e => e.2.Name) = es.map Prod.fst :=
      List.map_congr_left fun e he => hname e he
    rw [hsame]
    exact hnodup

theorem reachable_keyed_by_name_witness :
    Reachable sampleJson sampleGM (dragonState 10) ∧
    (∀ name monster, (dragonState 10).state.Monsters.index name = some monster →
      monster.Name = name) :=
  ⟨dragonState_reachable,
    (reachable_keyed_by_name sampleJson sampleGM (dragonState 10) dragonState_reachable).1⟩

/-- C16, the code at the failing input: the value `new(GameApplication)` that
`main` hands to the runtime has a nil mapping and is no value that
`NewGameApplication` produces; on it an AddMonster with positive hit points and
a fresh name from the authorised sender (the zero address) ends in the nil-map
panic, in `handleAddMonster` and so in `Advance`, while the same command on
`NewGameApplication` of that address stores the monster. -/
theorem main_application_nil_map :
    zeroGameApplication.state.Monsters = none ∧
    (∀ gm, zeroGameApplication ≠ NewGameApplication gm) ∧
    handleAddMonster zeroGameApplication (Metadata.mk zeroGameApplication.gm)
        { Name := "Dragon", HitPoints := GoInt.ofInt 10 } = Res.panic nilMapPanic ∧
    Advance sampleJson zeroGameApplication [] (Metadata.mk zeroGameApplication.gm) ()
        (envelope "AddMonster" payloadAddDragon) = Res.panic nilMapPanic ∧
    handleAddMonster (NewGameApplication 0) (Metadata.mk 0)
        { Name := "Dragon", HitPoints := GoInt.ofInt 10 } = Res.ret none (dragonOnly 0 10) := by
  refine ⟨rfl, ?_, by decide, by decide, by decide⟩
  intro gm h
  have hmap := congrArg (fun x => x.state.Monsters) h
  simp [zeroGameApplication, NewGameApplication, GoMap.make] at hmap

/-! ## Frame and order of the checks -/

theorem handleAddMonster_frame {a a' : GameApplication} {metadata : Metadata}
    {inputPayload : AddMonsterPayload}
    (h : handleAddMonster a metadata inputPayload = Res.ret none a') :
    a'.gm = a.gm ∧
    (∀ k, k ≠ inputPayload.Name → a'.state.Monsters.index k = a.state.Monsters.index k) ∧
    a.state.Monsters.index inputPayload.Name = none ∧
    a'.state.Monsters.index inputPayload.Name = some inputPayload := by
  obtain ⟨_, _, es, hm, hfind, rfl⟩ := handleAddMonster_ok h
  refine ⟨rfl, ?_, ?_, ?_⟩
  · intro k hk
    simp [GoMap.index, hm, GoMap.find_put_ne _ _ _ _ hk]
  · simp [GoMap.index, hm, hfind]
  · simp [GoMap.index, GoMap.find_put_same]

theorem handleAttackMonster_frame {a a' : GameApplication}
    {inputPayload : AttackMonsterPayload}
    (h : handleAttackMonster a inputPayload = Res.ret none a') :
    a'.gm = a.gm ∧
    (∀ k, k ≠ inputPayload.MonsterName →
      a'.state.Monsters.index k = a.state.Monsters.index k) ∧
    (a.state.Monsters.index inputPayload.MonsterName).isSome := by
  obtain ⟨_, es, found, hm, hfind, hcase⟩ := handleAttackMonster_ok h
  rcases hcase with ⟨_, rfl⟩ | ⟨_, rfl⟩
  · refine ⟨rfl, ?_, ?_⟩
    · intro k hk
      simp [GoMap.index, hm, GoMap.find_drop_ne _ _ _ hk]
    · simp [GoMap.index, hm, hfind]
  · refine ⟨rfl, ?_, ?_⟩
    · intro k hk
      simp [GoMap.index, hm, GoMap.find_put_ne _ _ _ _ hk]
    · simp [GoMap.index, hm, hfind]

/-- C17: frame. A successful `handleAddMonster` for name `n` and a successful
`handleAttackMonster` on name `n` leave the game-master unchanged and leave
every read under a key other than `n` as it was.  The add finds `n` absent
and leaves it present, so the set of names grows by exactly `n`; the attack
finds `n` present, so the set of names loses at most `n`. -/
theorem handlers_frame (a a' : GameApplication) :
    (∀ (metadata : Metadata) (inputPayload : AddMonsterPayload),
      handleAddMonster a metadata inputPayload = Res.ret none a' →
        a'.gm = a.gm ∧
        (∀ k, k ≠ inputPayload.Name →
          a'.state.Monsters.index k = a.state.Monsters.index k) ∧
        a.state.Monsters.index inputPayload.Name = none ∧
        a'.state.Monsters.index inputPayload.Name = some inputPayload ∧
        (∀ k, (a'.state.Monsters.index k).isSome ↔
          ((a.state.Monsters.index k).isSome ∨ k = inputPayload.Name))) ∧
    (∀ (inputPayload : AttackMonsterPayload),
      handleAttackMonster a inputPayload = Res.ret none a' →
        a'.gm = a.gm ∧
        (∀ k, k ≠ inputPayload.MonsterName →
          a'.state.Monsters.index k = a.state.Monsters.index k) ∧
        (a.state.Monsters.index inputPayload.MonsterName).isSome ∧
        (∀ k, (a'.state.Monsters.index k).isSome → (a.state.Monsters.index k).isSome) ∧
        (∀ k, (a.state.Monsters.index k).isSome → k ≠ inputPayload.MonsterName →
          (a'.state.Monsters.index k).isSome)) := by
  constructor
  · intro metadata inputPayload h
    obtain ⟨hgm, hother, habsent, hstored⟩ := handleAddMonster_frame h
    refine ⟨hgm, hother, habsent, hstored, ?_⟩
    intro k
    by_cases hk : k = inputPayload.Name
    · subst hk
      simp [hstored]
    · simp [hother k hk, hk]
  · intro inputPayload h
    obtain ⟨hgm, hother, hpresent⟩ := handleAttackMonster_frame h
    refine ⟨hgm, hother, hpresent, ?_, ?_⟩
    · intro k hsome
      by_cases hk : k = inputPayload.MonsterName
      · subst hk
        exact hpresent
      · rw [← hother k hk]
        exact hsome
    · intro k hsome hk
      rw [hother k hk]
      exact hsome

theorem handlers_frame_witness :
    handleAddMonster (dragonState 10) (Metadata.mk sampleGM)
        { Name := "Goblin", HitPoints := GoInt.ofInt 5 }
      = Res.ret none
          { gm := sampleGM,
            state := { Monsters := some (
              ("Dragon", { Name := "Dragon", HitPoints := GoInt.ofInt 10 }) ::
              ("Goblin", { Name := "Goblin", HitPoints := GoInt.ofInt 5 }) :: []) } } ∧
    (∀ k, k ≠ "Goblin" →
      GoMap.index (some (
          ("Dragon", { Name := "Dragon", HitPoints := GoInt.ofInt 10 }) ::
          ("Goblin", { Name := "Goblin", HitPoints := GoInt.ofInt 5 }) :: [])) k
        = (dragonState 10).state.Monsters.index k) ∧
    handleAttackMonster (dragonState 10) { MonsterName := "Dragon", Damage := GoInt.ofInt 4 }
      = Res.ret none (dragonState 6) ∧
    (∀ k, k ≠ "Dragon" →
      (dragonState 6).state.Monsters.index k = (dragonState 10).state.Monsters.index k) :=
  ⟨by decide,
    ((handlers_frame (dragonState 10)
      { gm := sampleGM,
        state := { Monsters := some (
          ("Dragon", { Name := "Dragon", HitPoints := GoInt.ofInt 10 }) ::
          ("Goblin", { Name := "Goblin", HitPoints := GoInt.ofInt 5 }) :: []) } }).1
      (Metadata.mk sampleGM) { Name := "Goblin", HitPoints := GoInt.ofInt 5 } (by decide)).2.1,
    by decide,
    ((handlers_frame (dragonState 10) (dragonState 6)).2
      { MonsterName := "Dragon", Damage := GoInt.ofInt 4 } (by decide)).2.1⟩

/-- C18, as stated, fails in its last sentence: on the value
`new(GameApplication)` none of the error conditions of `handleAddMonster` holds
(the sender is the game-master, the hit points are positive, the name is not
present) and yet the call does not succeed. -/
theorem handleAddMonster_no_error_no_success :
    (Metadata.mk 0).MsgSender = zeroGameApplication.gm ∧
    ¬ GoInt.ofInt 3 ≤ GoInt.zero ∧
    zeroGameApplication.state.Monsters.index "Orc" = none ∧
    ¬ ∃ a', handleAddMonster zeroGameApplication (Metadata.mk 0)
        { Name := "Orc", HitPoints := GoInt.ofInt 3 } = Res.ret none a' := by
  refine ⟨by decide, by decide, by decide, ?_⟩
  rintro ⟨a', h⟩
  have hpanic : handleAddMonster zeroGameApplication (Metadata.mk 0)
      { Name := "Orc", HitPoints := GoInt.ofInt 3 } = Res.panic nilMapPanic := by decide
  rw [hpanic] at h
  cases h

/-- C18, amended: the order of the checks fixes the error.  `handleAddMonster`
returns the authorization error whenever the sender is not the game-master;
otherwise the hit-points error whenever the hit points are zero or less;
otherwise the conflict error exactly when the name is present.
`handleAttackMonster` returns the negative-damage error whenever the damage is
below zero; otherwise the not-found error exactly when the name is absent.
`handleAttackMonster` succeeds exactly when none of its error conditions
holds, and so does `handleAddMonster` on a state whose mapping is allocated. -/
theorem error_precedence (a : GameApplication) (metadata : Metadata)
    (p : AddMonsterPayload) (q : AttackMonsterPayload) :
    (metadata.MsgSender ≠ a.gm →
      handleAddMonster a metadata p = Res.ret (some "only GM can add monsters") a) ∧
    (metadata.MsgSender = a.gm → p.HitPoints ≤ GoInt.zero →
      handleAddMonster a metadata p = Res.ret (some "hit points must be positive") a) ∧
    (metadata.MsgSender = a.gm → ¬ p.HitPoints ≤ GoInt.zero →
      (handleAddMonster a metadata p
          = Res.ret (some "monster with this name already exists") a ↔
        a.state.Monsters.index p.Name ≠ none)) ∧
    (q.Damage < GoInt.zero →
      handleAttackMonster a q = Res.ret (some "negative damage") a) ∧
    (¬ q.Damage < GoInt.zero →
      (handleAttackMonster a q = Res.ret (some "monster not found") a ↔
        a.state.Monsters.index q.MonsterName = none)) ∧
    ((∃ a', handleAttackMonster a q = Res.ret none a') ↔
      (¬ q.Damage < GoInt.zero ∧ a.state.Monsters.index q.MonsterName ≠ none)) ∧
    (a.state.Monsters ≠ none →
      ((∃ a', handleAddMonster a metadata p = Res.ret none a') ↔
        (metadata.MsgSender = a.gm ∧ ¬ p.HitPoints ≤ GoInt.zero ∧
          a.state.Monsters.index p.Name = none))) := by
  refine ⟨?_, ?_, ?_, ?_, ?_, ?_, ?_⟩
  · intro hgm
    simp [handleAddMonster, hgm]
  · intro hgm hhp
    simp [handleAddMonster, hgm, hhp]
  · intro hgm hhp
    cases hidx : a.state.Monsters.index p.Name with
    | some existing => simp [handleAddMonster, hgm, hhp, hidx]
    | none =>
      simp only [ne_eq, not_true_eq_false, iff_false]
      intro h
      unfold handleAddMonster at h
      simp only [hgm, ne_eq, not_true_eq_false, if_false, hhp, hidx] at h
      split at h <;> cases h
  · intro hneg
    simp [handleAttackMonster, hneg]
  · intro hnneg
    cases hidx : a.state.Monsters.index q.MonsterName with
    | none => simp [handleAttackMonster, hnneg, hidx]
    | some found =>
      simp only [reduceCtorEq, iff_false]
      intro h
      unfold handleAttackMonster at h
      simp only [hnneg, if_false, hidx] at h
      split_ifs at h
      · cases h
      · split at h <;> cases h
  · constructor
    · rintro ⟨a', h⟩
      obtain ⟨hnneg, es, found, hm, hfind, _⟩ := handleAttackMonster_ok h
      exact ⟨hnneg, by simp [GoMap.index, hm, hfind]⟩
    · rintro ⟨hnneg, hpresent⟩
      cases hm : a.state.Monsters with
      | none => simp [GoMap.index, hm] at hpresent
      | some es =>
        cases hidx : a.state.Monsters.index q.MonsterName with
        | none => exact absurd hidx hpresent
        | some found =>
          rw [hm] at hidx
          by_cases hle : found.HitPoints - q.Damage ≤ GoInt.zero
          · exact ⟨{ a with state := { Monsters := some (GoMap.drop q.MonsterName es) } },
              by simp [handleAttackMonster, hnneg, hidx, hle, hm, GoMap.delete]⟩
          · exact ⟨{ a with state := { Monsters := some (GoMap.put q.MonsterName
                { found with HitPoints := found.HitPoints - q.Damage } es) } },
              by simp [handleAttackMonster, hnneg, hidx, hle, hm, GoMap.assign]⟩
  · intro halloc
    constructor
    · rintro ⟨a', h⟩
      obtain ⟨hgm, hhp, es, hm, hfind, _⟩ := handleAddMonster_ok h
      exact ⟨hgm, hhp, by simp [GoMap.index, hm, hfind]⟩
    · rintro ⟨hgm, hhp, hfresh⟩
      cases hm : a.state.Monsters with
      | none => exact absurd hm halloc
      | some es =>
        have hpos : GoInt.zero < p.HitPoints := by
          rw [GoInt.lt_iff]
          rw [GoInt.le_iff] at hhp
          exact not_le.mp hhp
        exact ⟨_, handleAddMonster_fresh hm hgm hpos hfresh⟩

theorem error_precedence_witness :
    handleAddMonster (dragonState 10) (Metadata.mk 7)
        { Name := "Dragon", HitPoints := GoInt.ofInt 0 }
      = Res.ret (some "only GM can add monsters") (dragonState 10) ∧
    handleAddMonster (dragonState 10) (Metadata.mk sampleGM)
        { Name := "Dragon", HitPoints := GoInt.ofInt 0 }
      = Res.ret (some "hit points must be positive") (dragonState 10) ∧
    handleAttackMonster (dragonState 10) { MonsterName := "Goblin", Damage := GoInt.ofInt (-1) }
      = Res.ret (some "negative damage") (dragonState 10) :=
  ⟨(error_precedence (dragonState 10) (Metadata.mk 7)
      { Name := "Dragon", HitPoints := GoInt.ofInt 0 }
      { MonsterName := "Goblin", Damage := GoInt.ofInt (-1) }).1 (by decide),
    (error_precedence (dragonState 10) (Metadata.mk sampleGM)
      { Name := "Dragon", HitPoints := GoInt.ofInt 0 }
      { MonsterName := "Goblin", Damage := GoInt.ofInt (-1) }).2.1 (by decide) (by decide),
    (error_precedence (dragonState 10) (Metadata.mk 7)
      { Name := "Dragon", HitPoints := GoInt.ofInt 0 }
      { MonsterName := "Goblin", Damage := GoInt.ofInt (-1) }).2.2.2.1 (by decide)⟩

/-! ## Attacks in sequence and the machine subtraction -/

theorem GoMap.drop_put (k : String) (v : Monster) (es : List (String × Monster)) :
    GoMap.drop k (GoMap.put k v es) = GoMap.drop k es := by
  induction es with
  | nil => simp [GoMap.put, GoMap.drop]
  | cons e es ih =>
    obtain ⟨k', v'⟩ := e
    by_cases hk : k' = k
    · subst hk
      simp [GoMap.put, GoMap.drop]
    · simp [GoMap.put, GoMap.drop, hk, ih]

theorem GoMap.put_put (k : String) (v w : Monster) (es : List (String × Monster)) :
    GoMap.put k w (GoMap.put k v es) = GoMap.put k w es := by
  induction es with
  | nil => simp [GoMap.put]
  | cons e es ih =>
    obtain ⟨k', v'⟩ := e
    by_cases hk : k' = k
    · subst hk
      simp [GoMap.put]
    · simp [GoMap.put, hk, ih]

theorem handleAttackMonster_remove (a : GameApplication) {name : String} {damage : GoInt}
    {es : List (String × Monster)} {found : Monster}
    (hm : a.state.Monsters = some es) (hfind : GoMap.find name es = some found)
    (hnneg : ¬ damage < GoInt.zero) (hle : found.HitPoints - damage ≤ GoInt.zero) :
    handleAttackMonster a { MonsterName := name, Damage := damage }
      = Res.ret none { a with state := { Monsters := some (GoMap.drop name es) } } := by
  simp [handleAttackMonster, hnneg, hm, GoMap.index, hfind, hle, GoMap.delete]

theorem handleAttackMonster_update (a : GameApplication) {name : String} {damage : GoInt}
    {es : List (String × Monster)} {found : Monster}
    (hm : a.state.Monsters = some es) (hfind : GoMap.find name es = some found)
    (hnneg : ¬ damage < GoInt.zero) (hgt : ¬ found.HitPoints - damage ≤ GoInt.zero) :
    handleAttackMonster a { MonsterName := name, Damage := damage }
      = Res.ret none { a with state := { Monsters := some (GoMap.put name
          { found with HitPoints := found.HitPoints - damage } es) } } := by
  simp [handleAttackMonster, hnneg, hm, GoMap.index, hfind, hgt, GoMap.assign]

/-- C19: attacks compose additively. For a monster stored with hit points
`h > 0` and damages `d₁, d₂ ≥ 0` whose sum `d₁₂` fits the integer type: when
`d₁ < h`, the attack with `d₁` and then the attack with `d₂` both return no
error and leave the very state that the single attack with `d₁₂` leaves; when
`d₁ ≥ h`, the first attack removes the monster and the second returns the
error "monster not found". -/
theorem attacks_compose (a : GameApplication) (name : String) (monster : Monster)
    (d₁ d₂ d₁₂ : GoInt)
    (hstored : a.state.Monsters.index name = some monster)
    (hpos : GoInt.zero < monster.HitPoints)
    (hd₁ : GoInt.zero ≤ d₁) (hd₂ : GoInt.zero ≤ d₂)
    (hsum : d₁₂.toInt = d₁.toInt + d₂.toInt) :
    (d₁ < monster.HitPoints →
      ∃ a₁ a₂,
        handleAttackMonster a { MonsterName := name, Damage := d₁ } = Res.ret none a₁ ∧
        handleAttackMonster a₁ { MonsterName := name, Damage := d₂ } = Res.ret none a₂ ∧
        handleAttackMonster a { MonsterName := name, Damage := d₁₂ } = Res.ret none a₂) ∧
    (monster.HitPoints ≤ d₁ →
      ∃ a₁,
        handleAttackMonster a { MonsterName := name, Damage := d₁ } = Res.ret none a₁ ∧
        handleAttackMonster a₁ { MonsterName := name, Damage := d₂ }
          = Res.ret (some "monster not found") a₁) := by
  have hz := GoInt.zero_toInt
  have hn₁ : ¬ d₁ < GoInt.zero := by
    rw [GoInt.lt_iff]; rw [GoInt.le_iff] at hd₁; exact not_lt.mpr hd₁
  have hn₂ : ¬ d₂ < GoInt.zero := by
    rw [GoInt.lt_iff]; rw [GoInt.le_iff] at hd₂; exact not_lt.mpr hd₂
  have hn₁₂ : ¬ d₁₂ < GoInt.zero := by
    rw [GoInt.lt_iff, hsum]; rw [GoInt.le_iff] at hd₁ hd₂; omega
  have hsub₁ := GoInt.sub_toInt_of_pos monster.HitPoints d₁ hpos hn₁
  have hsub₁₂ := GoInt.sub_toInt_of_pos monster.HitPoints d₁₂ hpos hn₁₂
  cases hm : a.state.Monsters with
  | none => simp [GoMap.index, hm] at hstored
  | some es =>
    have hfind : GoMap.find name es = some monster := by
      simpa [GoMap.index, hm] using hstored
    constructor
    · intro hlt
      rw [GoInt.lt_iff] at hlt
      have hgt₁ : ¬ monster.HitPoints - d₁ ≤ GoInt.zero := by
        rw [GoInt.le_iff, hsub₁, hz]; omega
      have hpos₁ : GoInt.zero < monster.HitPoints - d₁ := by
        rw [GoInt.lt_iff, hsub₁, hz]; omega
      have hsub₂ := GoInt.sub_toInt_of_pos (monster.HitPoints - d₁) d₂ hpos₁ hn₂
      have heq : monster.HitPoints - d₁ - d₂ = monster.HitPoints - d₁₂ := by
        apply GoInt.ext
        rw [hsub₂, hsub₁, hsub₁₂, hsum]
        omega
      have hstep₁ := handleAttackMonster_update a hm hfind hn₁ hgt₁
      have hfind₁ : GoMap.find name (GoMap.put name
          { monster with HitPoints := monster.HitPoints - d₁ } es)
          = some { monster with HitPoints := monster.HitPoints - d₁ } :=
        GoMap.find_put_same _ _ _
      by_cases hle : monster.HitPoints - d₁₂ ≤ GoInt.zero
      · refine ⟨_, _, hstep₁, ?_, handleAttackMonster_remove a hm hfind hn₁₂ hle⟩
        have hle' : (Monster.mk monster.Name (monster.HitPoints - d₁)).HitPoints - d₂
            ≤ GoInt.zero := by
          show monster.HitPoints - d₁ - d₂ ≤ GoInt.zero
          rw [heq]; exact hle
        have hstep₂ := handleAttackMonster_remove
          ⟨a.gm, ⟨some (GoMap.put name ⟨monster.Name, monster.HitPoints - d₁⟩ es)⟩⟩
          rfl hfind₁ hn₂ hle'
        rw [hstep₂, GoMap.drop_put]
      · refine ⟨_, _, hstep₁, ?_, handleAttackMonster_update a hm hfind hn₁₂ hle⟩
        have hgt' : ¬ (Monster.mk monster.Name (monster.HitPoints - d₁)).HitPoints - d₂
            ≤ GoInt.zero := by
          show ¬ monster.HitPoints - d₁ - d₂ ≤ GoInt.zero
          rw [heq]; exact hle
        have hstep₂ := handleAttackMonster_update
          ⟨a.gm, ⟨some (GoMap.put name ⟨monster.Name, monster.HitPoints - d₁⟩ es)⟩⟩
          rfl hfind₁ hn₂ hgt'
        rw [hstep₂, GoMap.put_put]
        show Res.ret none (GameApplication.mk a.gm ⟨some (GoMap.put name
            ⟨monster.Name, monster.HitPoints - d₁ - d₂⟩ es)⟩) = _
        rw [heq]
    · intro hge
      rw [GoInt.le_iff] at hge
      have hle₁ : monster.HitPoints - d₁ ≤ GoInt.zero := by
        rw [GoInt.le_iff, hsub₁, hz]; omega
      refine ⟨_, handleAttackMonster_remove a hm hfind hn₁ hle₁, ?_⟩
      simp [handleAttackMonster, hn₂, GoMap.index, GoMap.find_drop_same]

theorem attacks_compose_witness :
    handleAttackMonster (dragonState 10) { MonsterName := "Dragon", Damage := GoInt.ofInt 4 }
      = Res.ret none (dragonState 6) ∧
    handleAttackMonster (dragonState 6) { MonsterName := "Dragon", Damage := GoInt.ofInt 3 }
      = Res.ret none (dragonState 3) ∧
    handleAttackMonster (dragonState 10) { MonsterName := "Dragon", Damage := GoInt.ofInt 7 }
      = Res.ret none (dragonState 3) ∧
    (GoInt.ofInt 4 < GoInt.ofInt 10 →
      ∃ a₁ a₂,
        handleAttackMonster (dragonState 10)
          { MonsterName := "Dragon", Damage := GoInt.ofInt 4 } = Res.ret none a₁ ∧
        handleAttackMonster a₁
          { MonsterName := "Dragon", Damage := GoInt.ofInt 3 } = Res.ret none a₂ ∧
        handleAttackMonster (dragonState 10)
          { MonsterName := "Dragon", Damage := GoInt.ofInt 7 } = Res.ret none a₂) :=
  ⟨by decide, by decide, by decide,
    (attacks_compose (dragonState 10) "Dragon"
      { Name := "Dragon", HitPoints := GoInt.ofInt 10 }
      (GoInt.ofInt 4) (GoInt.ofInt 3) (GoInt.ofInt 7)
      (by decide) (by decide) (by decide) (by decide) (by decide)).1⟩

/-- C20: no wrap-around in attacks. In every reachable state, for every stored
monster with hit points `h` and every accepted damage `d` (not below zero),
`0 < h ≤ MaxInt64` and `0 ≤ d ≤ MaxInt64`, the 64-bit subtraction that
`handleAttackMonster` performs equals the mathematical difference `h - d`,
which lies between `1 - MaxInt64` and `MaxInt64`; the test on the machine
result is the test on the mathematical one, and the attack removes the monster
exactly when `h - d ≤ 0` over the unbounded integers. -/
theorem attack_subtraction_exact (J : Json) (gm : Address) (a : GameApplication)
    (name : String) (monster : Monster) (damage : GoInt)
    (hreach : Reachable J gm a)
    (hstored : a.state.Monsters.index name = some monster)
    (hdamage : GoInt.zero ≤ damage) :
    (0 < monster.HitPoints.toInt ∧ monster.HitPoints.toInt ≤ maxInt ∧
      0 ≤ damage.toInt ∧ damage.toInt ≤ maxInt) ∧
    (monster.HitPoints - damage).toInt = monster.HitPoints.toInt - damage.toInt ∧
    (1 - maxInt ≤ monster.HitPoints.toInt - damage.toInt ∧
      monster.HitPoints.toInt - damage.toInt ≤ maxInt) ∧
    (monster.HitPoints - damage ≤ GoInt.zero ↔
      monster.HitPoints.toInt - damage.toInt ≤ 0) ∧
    ∃ a', handleAttackMonster a { MonsterName := name, Damage := damage } = Res.ret none a' ∧
      (a'.state.Monsters.index name = none ↔
        monster.HitPoints.toInt - damage.toInt ≤ 0) := by
  have hz := GoInt.zero_toInt
  have hpos : GoInt.zero < monster.HitPoints := hreach.positive.index hstored
  have hnneg : ¬ damage < GoInt.zero := by
    rw [GoInt.lt_iff]; rw [GoInt.le_iff] at hdamage; exact not_lt.mpr hdamage
  have hsub := GoInt.sub_toInt_of_pos monster.HitPoints damage hpos hnneg
  have rh := monster.HitPoints.toInt_range
  have rd := damage.toInt_range
  have hpos' := hpos
  rw [GoInt.lt_iff, hz] at hpos'
  rw [GoInt.le_iff, hz] at hdamage
  have hdec : monster.HitPoints - damage ≤ GoInt.zero ↔
      monster.HitPoints.toInt - damage.toInt ≤ 0 := by
    rw [GoInt.le_iff, hsub, hz]
  refine ⟨⟨hpos', rh.2, hdamage, rd.2⟩, hsub, ?_, hdec, ?_⟩
  · unfold maxInt at *
    omega
  · cases hm : a.state.Monsters with
    | none => simp [GoMap.index, hm] at hstored
    | some es =>
      have hfind : GoMap.find name es = some monster := by
        simpa [GoMap.index, hm] using hstored
      by_cases hle : monster.HitPoints - damage ≤ GoInt.zero
      · refine ⟨_, handleAttackMonster_remove a hm hfind hnneg hle, ?_⟩
        simp [GoMap.index, GoMap.find_drop_same, hdec.mp hle]
      · refine ⟨_, handleAttackMonster_update a hm hfind hnneg hle, ?_⟩
        have hgt : ¬ monster.HitPoints.toInt - damage.toInt ≤ 0 := fun h => hle (hdec.mpr h)
        simp [GoMap.index, GoMap.find_put_same, hgt]

theorem attack_subtraction_exact_witness :
    (GoInt.ofInt 10 - GoInt.ofInt 4).toInt = (GoInt.ofInt 10).toInt - (GoInt.ofInt 4).toInt ∧
    (GoInt.ofInt 10).toInt - (GoInt.ofInt 4).toInt = 6 :=
  ⟨(attack_subtraction_exact sampleJson sampleGM (dragonState 10) "Dragon"
      { Name := "Dragon", HitPoints := GoInt.ofInt 10 } (GoInt.ofInt 4)
      dragonState_reachable (by decide) (by decide)).2.1,
    by decide⟩

end BasicGame
